import Mathlib

/-!
Verification development for the NotaShare local persistence and identity core.

The definitions below are a shallow embedding of the TypeScript source:
* `src/types/index.ts` — the `User`, `Note`, `TextBox`, `DrawingData`, `Stats` records;
* `src/utils/db.ts` — the IndexedDB gateway (`saveNote`, `getNote`, `getNotes`,
  `saveUser`, `getUser`, `getStats`, `initStats`, `incrementUniqueUsers`);
* `src/hooks/useNotes.ts` — the note repository (`loadNotes`, `createNote`,
  `loadNote`, `saveCurrentNote`);
* `src/hooks/useUser.ts` — identity resolution (`initUser`);
* `src/utils/avatarGenerator.ts` — `generateAvatar`;
* `src/components/Canvas.tsx` — the save protocol handlers (`handleSave`,
  `handleSaveText`).

The IndexedDB stores are modelled as in-memory lists; opening and closing of
transactions is elided.  Per the IndexedDB specification, `store.get(key)` on a
missing key RESOLVES with `undefined` (it does not reject), which we model as
`Option`: `none` is a successful resolution carrying `undefined`.  Storage-level
rejections do not occur in this pure model, so the `catch` branches of the hook
functions are unreachable and the hook's `error` cell is never written; the one
function whose behaviour under rejection a claim is about
(`incrementUniqueUsers`) instead takes the outcome of each of its two storage
round-trips as an explicit boolean parameter.  `Date.now()` is modelled as an
explicit `now : Nat` argument at each call that reads the clock.
-/

/-- JavaScript truthiness of a `string | undefined` value: `undefined` and the
empty string are falsy (`if (!currentUserId) ...`). -/
def strTruthy : Option String → Bool
  | none => false
  | some s => !s.isEmpty

/-- Text direction, `'ltr' | 'rtl'` from `src/types/index.ts`. -/
inductive Dir where
  | ltr
  | rtl
deriving Repr, DecidableEq

/-- `TextBox` from `src/types/index.ts`.  JS numbers for coordinates are
modelled as integers (the repository only ever writes integral values). -/
structure TextBox where
  id : String
  content : String
  x : Int
  y : Int
  width : Int
  height : Int
  zIndex : Nat
deriving Repr, DecidableEq

/-- A point of a freehand stroke (`{ x, y }` in `DrawingData.points`). -/
structure Pt where
  x : Int
  y : Int
deriving Repr, DecidableEq

/-- `DrawingData` from `src/types/index.ts`. -/
structure DrawingData where
  id : String
  points : List Pt
  color : String
  width : Nat
deriving Repr, DecidableEq

/-- `Note` from `src/types/index.ts`.  `canvasData` is an opaque serialized
path array (`any` in the source); each path is modelled as an opaque token so
that only its identity and the array's length matter, which is all the code
inspects (`paths.length`). -/
structure Note where
  id : Option Nat
  title : String
  createdBy : String
  createdAt : Nat
  lastModifiedBy : String
  lastModifiedAt : Nat
  textBoxes : List TextBox
  drawings : List DrawingData
  canvasData : Option (List Nat) := none
  textContent : Option String := none
  textDirection : Option Dir := none
deriving Repr, DecidableEq

/-- `Partial<Note>`: every field possibly absent.  A `some v` entry is a field
present in the partial update; `none` is an absent key (and is therefore left
alone by the object spread in `saveCurrentNote`). -/
structure NotePatch where
  id : Option Nat := none
  title : Option String := none
  createdBy : Option String := none
  createdAt : Option Nat := none
  lastModifiedBy : Option String := none
  lastModifiedAt : Option Nat := none
  textBoxes : Option (List TextBox) := none
  drawings : Option (List DrawingData) := none
  canvasData : Option (List Nat) := none
  textContent : Option String := none
  textDirection : Option Dir := none
deriving Repr, DecidableEq

/-- A present patch field overrides the old value of a mandatory field. -/
def overrideWith (p : Option α) (old : α) : α := p.getD old

/-- A present patch field overrides the old value of an optional field; an
absent key leaves it untouched. -/
def overrideOpt (p : Option α) (old : Option α) : Option α :=
  match p with
  | some v => some v
  | none => old

/-- The object spread `{ ...currentNote, ...updatedNote }` of
`saveCurrentNote` (`src/hooks/useNotes.ts`). -/
def mergeNote (n : Note) (p : NotePatch) : Note :=
  { id := overrideOpt p.id n.id
    title := overrideWith p.title n.title
    createdBy := overrideWith p.createdBy n.createdBy
    createdAt := overrideWith p.createdAt n.createdAt
    lastModifiedBy := overrideWith p.lastModifiedBy n.lastModifiedBy
    lastModifiedAt := overrideWith p.lastModifiedAt n.lastModifiedAt
    textBoxes := overrideWith p.textBoxes n.textBoxes
    drawings := overrideWith p.drawings n.drawings
    canvasData := overrideOpt p.canvasData n.canvasData
    textContent := overrideOpt p.textContent n.textContent
    textDirection := overrideOpt p.textDirection n.textDirection }

/-! ### The notes object store (`db.ts`, collection `notes`)

Keyed by `id` with `autoIncrement: true`; the key generator starts at 1 and,
per IndexedDB semantics, jumps past any explicitly supplied numeric key. -/

/-- Look up the record whose `id` field equals `some k` (IndexedDB
`store.get(k)`; resolves with `undefined`, i.e. `none`, when absent). -/
def getRec : List Note → Nat → Option Note
  | [], _ => none
  | m :: ms, k => if m.id = some k then some m else getRec ms k

/-- Store a record under key `k`, replacing an existing record with that key
or appending a new one (IndexedDB `store.put`). -/
def putAt : List Note → Nat → Note → List Note
  | [], _, n => [n]
  | m :: ms, k, n => if m.id = some k then n :: ms else m :: putAt ms k n

/-- The `notes` object store: its records plus the auto-increment key
generator state. -/
structure NotesStore where
  nextId : Nat := 1
  recs : List Note := []
deriving Repr, DecidableEq

/-- `saveNote(note)` from `db.ts`: `store.put(note)` on the `notes` store.  A
note with an `id` overwrites the record at that key; a note without one gets
the generated key injected into its `id` field.  Returns the key. -/
def saveNote (store : NotesStore) (note : Note) : NotesStore × Nat :=
  match note.id with
  | some k => (⟨Nat.max store.nextId (k + 1), putAt store.recs k note⟩, k)
  | none =>
    let k := store.nextId
    (⟨k + 1, putAt store.recs k { note with id := some k }⟩, k)

/-- `getNote(id)` from `db.ts`. -/
def getNote (store : NotesStore) (k : Nat) : Option Note :=
  getRec store.recs k

/-- `getNotes()` from `db.ts`: `store.getAll()`. -/
def getNotes (store : NotesStore) : List Note :=
  store.recs

/-! ### Sorting (`allNotes.sort((a, b) => b.lastModifiedAt - a.lastModifiedAt)`)

JavaScript `Array.prototype.sort` with this comparator produces a stable
descending order on `lastModifiedAt`; we embed it as a stable insertion
sort. -/

/-- Insert a note into a list already sorted descending by `lastModifiedAt`,
before the first strictly older entry (ties keep the original order, matching
the stability of `Array.prototype.sort`). -/
def insertByMod (n : Note) : List Note → List Note
  | [] => [n]
  | m :: ms =>
    if m.lastModifiedAt ≤ n.lastModifiedAt then n :: m :: ms
    else m :: insertByMod n ms

/-- `.sort((a, b) => b.lastModifiedAt - a.lastModifiedAt)`. -/
def sortByModDesc (l : List Note) : List Note := l.foldr insertByMod []

/-- The list is ordered by `lastModifiedAt` descending. -/
def SortedDesc (l : List Note) : Prop :=
  l.Pairwise fun a b => b.lastModifiedAt ≤ a.lastModifiedAt

instance : DecidablePred SortedDesc := fun l =>
  inferInstanceAs (Decidable (l.Pairwise _))

/-! ### The note repository (`src/hooks/useNotes.ts`)

The hook's `useState` cells (`notes`, `currentNote`, `error`) together with the
persistent store form the repository state; each callback is a state
transformer. -/

/-- The state held by the `useNotes` hook plus the backing store. -/
structure NotesState where
  store : NotesStore := {}
  notes : List Note := []
  currentNote : Option Note := none
  error : Option String := none
deriving Repr, DecidableEq

/-- The state at first render over an empty database. -/
def initialNotesState : NotesState := {}

/-- `loadNotes` from `useNotes.ts`: fetch all notes, sort them descending by
`lastModifiedAt`, publish the list, and select the most recent note when no
note is current. -/
def loadNotes (st : NotesState) (currentUserId : Option String) : NotesState :=
  if !strTruthy currentUserId then st
  else
    let allNotes := sortByModDesc (getNotes st.store)
    let current :=
      match st.currentNote with
      | some n => some n
      | none => allNotes.head?
    { st with notes := allNotes, currentNote := current }

/-- `createNote` from `useNotes.ts`: build a blank note stamped with the
acting user and the current time, persist it to obtain an id, re-fetch the
stored record, prepend it to the list and make it current.  The `none` branch
of the re-fetch is unreachable (a freshly stored key is always found, see
`getNote_saveNote_fresh`); it is kept to mirror the source's typing. -/
def createNote (st : NotesState) (currentUserId : Option String) (now : Nat) :
    NotesState × Option Note :=
  if !strTruthy currentUserId then (st, none)
  else
    let u := currentUserId.getD ""
    let newNote : Note :=
      { id := none
        title := "Note " ++ toString now
        createdBy := u
        createdAt := now
        lastModifiedBy := u
        lastModifiedAt := now
        textBoxes := []
        drawings := [] }
    let res := saveNote st.store newNote
    match getNote res.1 res.2 with
    | some savedNote =>
      ({ st with
          store := res.1
          notes := savedNote :: st.notes
          currentNote := some savedNote }, some savedNote)
    | none => ({ st with store := res.1 }, none)

/-- `loadNote(noteId)` from `useNotes.ts`: fetch by id and make the result
current.  A missing id resolves with `undefined` (IndexedDB `get` does not
reject on absence), so the success path runs: `setCurrentNote(undefined)` and
`return undefined`; the `catch` branch (which would set `error`) fires only on
a storage rejection, which this model excludes. -/
def loadNote (st : NotesState) (noteId : Nat) : NotesState × Option Note :=
  let note := getNote st.store noteId
  ({ st with currentNote := note }, note)

/-- `saveCurrentNote(updatedNote)` from `useNotes.ts`: no current note or no
acting user is a no-op returning `null`; otherwise spread the partial update
over the current note, stamp `lastModifiedBy`/`lastModifiedAt`, persist the
merged record, make it current, replace it in the in-memory list by id, and
re-sort the list descending by `lastModifiedAt`. -/
def saveCurrentNote (st : NotesState) (currentUserId : Option String)
    (updatedNote : NotePatch) (now : Nat) : NotesState × Option Note :=
  match st.currentNote with
  | none => (st, none)
  | some cur =>
    if !strTruthy currentUserId then (st, none)
    else
      let noteToSave : Note :=
        { mergeNote cur updatedNote with
            lastModifiedBy := currentUserId.getD ""
            lastModifiedAt := now }
      let res := saveNote st.store noteToSave
      let updatedNotes :=
        st.notes.map fun n => if n.id = noteToSave.id then noteToSave else n
      ({ st with
          store := res.1
          currentNote := some noteToSave
          notes := sortByModDesc updatedNotes }, some noteToSave)

/-! ### Stats and identity (`db.ts` stats operations, `useUser.ts`,
`avatarGenerator.ts`) -/

/-- `Stats` from `src/types/index.ts`: the singleton usage-counter record
stored under the fixed key `"global"`. -/
structure Stats where
  id : String
  uniqueUsers : Nat
deriving Repr, DecidableEq

/-- JavaScript `x || 0` on a number: `0` is falsy, everything else (over `Nat`)
is itself. -/
def jsOrZero (n : Nat) : Nat := if n == 0 then 0 else n

/-- `incrementUniqueUsers()` from `db.ts`.  `store` is the content of the
`stats` collection under key `"global"` (`none` = record absent); `readOk`
and `writeOk` are the outcomes of the two storage round-trips (`false` = the
transaction rejected).  A rejected read is caught by the inner `try` and
replaced by a fresh `{ id: 'global', uniqueUsers: 0 }`; a read that resolves
with `undefined` (record absent) is NOT caught there, so the subsequent
`stats.uniqueUsers` field access throws, lands in the outer `catch`, and the
call resolves with `0` without writing.  A rejected write likewise lands in
the outer `catch` and resolves with `0`.  The function itself never
rejects — it is total. -/
def incrementUniqueUsers (store : Option Stats) (readOk writeOk : Bool) :
    Option Stats × Nat :=
  let readResult : Option Stats :=
    if readOk then store else some { id := "global", uniqueUsers := 0 }
  match readResult with
  | none => (store, 0)
  | some stats =>
    let stats' : Stats := { stats with uniqueUsers := jsOrZero stats.uniqueUsers + 1 }
    if writeOk then (some stats', stats'.uniqueUsers) else (store, 0)

/-- `User` from `src/types/index.ts`. -/
structure User where
  id : String
  avatarUrl : Option String := none
  createdAt : Nat
deriving Repr, DecidableEq

/-- `getUser(id)` from `db.ts`: `store.get(id)` on the `users` collection. -/
def getUser : List User → String → Option User
  | [], _ => none
  | v :: vs, i => if v.id = i then some v else getUser vs i

/-- `saveUser(user)` from `db.ts`: `store.put(user)` on the `users` collection
(keyed by `id`, replace-or-insert). -/
def saveUser : List User → User → List User
  | [], u => [u]
  | v :: vs, u => if v.id = u.id then u :: vs else v :: saveUser vs u

/-- ECMA-262 `encodeURIComponent`: characters of the `uriUnescaped` set
(ASCII letters, digits, and `- _ . ! ~ * ' ( )`) pass through; every other
character is percent-encoded byte-by-byte in UTF-8 (this models the browser
builtin used by `generateAvatar`). -/
def isUriUnescaped (c : Char) : Bool :=
  let n := c.toNat
  (65 ≤ n && n ≤ 90) || (97 ≤ n && n ≤ 122) || (48 ≤ n && n ≤ 57) ||
    n == 45 || n == 95 || n == 46 || n == 33 || n == 126 || n == 42 ||
    n == 39 || n == 40 || n == 41

/-- Upper-case hexadecimal digit of a value below 16. -/
def hexDigit (n : Nat) : Char := Char.ofNat (if n < 10 then 48 + n else 55 + n)

/-- `%XY` percent-escape of one byte. -/
def percentEncodeByte (b : Nat) : List Char :=
  [Char.ofNat 37, hexDigit (b / 16), hexDigit (b % 16)]

/-- UTF-8 encoding of a Unicode code point. -/
def utf8Bytes (n : Nat) : List Nat :=
  if n < 128 then [n]
  else if n < 2048 then [192 + n / 64, 128 + n % 64]
  else if n < 65536 then [224 + n / 4096, 128 + n / 64 % 64, 128 + n % 64]
  else [240 + n / 262144, 128 + n / 4096 % 64, 128 + n / 64 % 64, 128 + n % 64]

/-- Model of the browser's `encodeURIComponent`. -/
def encodeURIComponent (s : String) : String :=
  String.mk <| s.data.foldr
    (fun c acc =>
      (if isUriUnescaped c then [c] else (utf8Bytes c.toNat).flatMap percentEncodeByte) ++ acc)
    []

/-- `generateAvatar(seed)` from `src/utils/avatarGenerator.ts`: a DiceBear URL
deterministically seeded by the fingerprint. -/
def generateAvatar (seed : String) : String :=
  "https://api.dicebear.com/7.x/fun-emoji/svg?seed=" ++ encodeURIComponent seed

/-- The persistent state touched by identity resolution: the `users`
collection and the `"global"` record of the `stats` collection. -/
structure IdentityState where
  users : List User := []
  stats : Option Stats := none
deriving Repr, DecidableEq

/-- `getStats()` from `db.ts`. -/
def getStats (st : IdentityState) : Option Stats := st.stats

/-- `initStats()` from `db.ts`: read the `"global"` record and create
`{ id: 'global', uniqueUsers: 0 }` when it is absent (`if (!stats ...)`). -/
def initStats (st : IdentityState) : IdentityState :=
  match st.stats with
  | none => { st with stats := some { id := "global", uniqueUsers := 0 } }
  | some _ => st

/-- The `setUniqueUsers` step of `initUser`: `if (stats && stats.uniqueUsers)`
— a present record with a non-zero (truthy) counter is displayed, otherwise
the state keeps its initial `0`. -/
def displayedUniqueUsers (stats : Option Stats) : Nat :=
  match stats with
  | some s => if s.uniqueUsers == 0 then 0 else s.uniqueUsers
  | none => 0

/-- `initUser` from `src/hooks/useUser.ts` (rejection-free storage): run
`initStats`, look the fingerprint up in `users`; when absent, build a `User`
with a deterministically seeded avatar URL and the current timestamp, persist
it, and bump the global unique-user counter; finally read the counter back
for display.  Returns (new state, resolved current user, displayed count). -/
def initUser (st : IdentityState) (fingerprint : String) (now : Nat) :
    IdentityState × Option User × Nat :=
  let st1 := initStats st
  match getUser st1.users fingerprint with
  | some existingUser =>
    (st1, some existingUser, displayedUniqueUsers (getStats st1))
  | none =>
    let newUser : User :=
      { id := fingerprint
        avatarUrl := some (generateAvatar fingerprint)
        createdAt := now }
    let users2 := saveUser st1.users newUser
    let res := incrementUniqueUsers st1.stats true true
    let st2 : IdentityState := { users := users2, stats := res.1 }
    (st2, some newUser, displayedUniqueUsers (getStats st2))

/-! ### Canvas save protocol (`src/components/Canvas.tsx`)

`saveCanvasData` is the in-memory path cache; `canvasRef` is `none` when the
live drawing surface is unmounted and `some l` when mounted with
`exportPaths()` resolving to `l`.  Each handler returns the note object it
hands to `saveCurrentNote` (or `none` when it returns early) together with the
new cache value. -/

/-- JS truthiness-and-nonemptiness test `paths && paths.length > 0` on a
possibly-undefined path array. -/
def pathsTruthyNonempty : Option (List Nat) → Bool
  | none => false
  | some l => decide (0 < l.length)

/-- `handleSave` from `Canvas.tsx` (the canvas-save path): export the live
paths when the surface is mounted (caching them when non-empty), otherwise
fall back to the cache; give up when neither yields an array (`if (!paths)
return` — note an EMPTY array is truthy and proceeds); spread the full current
note and overwrite `canvasData` with the paths. -/
def handleSave (currentNote : Option Note)
    (saveCanvasData canvasRef : Option (List Nat))
    (currentUserId : String) (now : Nat) : Option Note × Option (List Nat) :=
  match currentNote with
  | none => (none, saveCanvasData)
  | some cur =>
    let paths : Option (List Nat) :=
      match canvasRef with
      | some live => some live
      | none => saveCanvasData
    let cache :=
      if canvasRef.isSome && pathsTruthyNonempty paths then paths
      else saveCanvasData
    match paths with
    | none => (none, cache)
    | some p =>
      (some { cur with
                canvasData := some p
                lastModifiedBy := currentUserId
                lastModifiedAt := now }, cache)

/-- `handleSaveText` from `Canvas.tsx` (the text-save path): start from the
cached paths and re-export from the live surface only when the cache is
absent or empty (caching a non-empty export); build the updated note with the
new text fields, including `canvasData` only when the paths are non-empty (so
an absent/empty path set leaves the note's stored `canvasData` untouched via
the spread). -/
def handleSaveText (currentNote : Option Note)
    (saveCanvasData canvasRef : Option (List Nat))
    (text : String) (direction : Dir)
    (currentUserId : String) (now : Nat) : Option Note × Option (List Nat) :=
  match currentNote with
  | none => (none, saveCanvasData)
  | some cur =>
    let doExport := canvasRef.isSome && !pathsTruthyNonempty saveCanvasData
    let paths := if doExport then canvasRef else saveCanvasData
    let cache :=
      if doExport && pathsTruthyNonempty paths then paths else saveCanvasData
    (some { cur with
              textContent := some text
              textDirection := some direction
              canvasData :=
                if pathsTruthyNonempty paths then paths else cur.canvasData
              lastModifiedBy := currentUserId
              lastModifiedAt := now }, cache)

/-! ### Operation sequences over the note repository -/

/-- One repository operation of the kinds the stored-record invariant claim
quantifies over, tagged with the `Date.now()` reading of the call. -/
inductive NoteOp where
  | create (now : Nat)
  | save (patch : NotePatch) (now : Nat)
deriving Repr

/-- The clock reading of an operation. -/
def opTime : NoteOp → Nat
  | .create now => now
  | .save _ now => now

/-- Apply one operation (discarding the returned note). -/
def applyOp (currentUserId : Option String) (st : NotesState) : NoteOp → NotesState
  | .create now => (createNote st currentUserId now).1
  | .save patch now => (saveCurrentNote st currentUserId patch now).1

/-- Run a sequence of operations. -/
def runOps (currentUserId : Option String) (st : NotesState)
    (ops : List NoteOp) : NotesState :=
  ops.foldl (applyOp currentUserId) st

/-- The clock readings along the sequence never decrease, starting from a
lower bound `t`. -/
def timesMono (t : Nat) : List NoteOp → Prop
  | [] => True
  | op :: ops => t ≤ opTime op ∧ timesMono (opTime op) ops

/-- A partial update that does not override the creation metadata. -/
def cleanPatch (p : NotePatch) : Prop := p.createdAt = none ∧ p.createdBy = none

/-- Every save of the sequence has a clean patch. -/
def cleanOps : List NoteOp → Prop
  | [] => True
  | NoteOp.create _ :: ops => cleanOps ops
  | NoteOp.save p _ :: ops => cleanPatch p ∧ cleanOps ops

/-- The stamp invariant of one note record relative to a clock bound. -/
def noteOk (t : Nat) (n : Note) : Prop :=
  n.createdAt ≤ n.lastModifiedAt ∧ n.lastModifiedAt ≤ t

/-- The stamp invariant over the parts of the repository state that feed
future saves: the persisted records and the current note. -/
def stateOk (t : Nat) (st : NotesState) : Prop :=
  (∀ n ∈ st.store.recs, noteOk t n) ∧
    ∀ n, st.currentNote = some n → noteOk t n

/-! ### Helper lemmas -/

theorem getRec_putAt (recs : List Note) (k : Nat) (n : Note) (hn : n.id = some k) :
    getRec (putAt recs k n) k = some n := by
  induction recs with
  | nil => simp [putAt, getRec, hn]
  | cons m ms ih =>
    by_cases hm : m.id = some k
    · simp [putAt, getRec, hm, hn]
    · simp [putAt, getRec, hm, ih]

theorem mem_putAt {x n : Note} {k : Nat} :
    ∀ {recs : List Note}, x ∈ putAt recs k n → x = n ∨ x ∈ recs := by
  intro recs
  induction recs with
  | nil => simp [putAt]
  | cons m ms ih =>
    by_cases hm : m.id = some k
    · simp only [putAt, if_pos hm, List.mem_cons]
      rintro (rfl | h)
      · exact Or.inl rfl
      · exact Or.inr (Or.inr h)
    · simp only [putAt, if_neg hm, List.mem_cons]
      rintro (rfl | h)
      · exact Or.inr (Or.inl rfl)
      · rcases ih h with h' | h'
        · exact Or.inl h'
        · exact Or.inr (Or.inr h')

theorem getNote_saveNote_fresh (store : NotesStore) (note : Note)
    (h : note.id = none) :
    getNote (saveNote store note).1 (saveNote store note).2
      = some { note with id := some store.nextId } := by
  simp only [saveNote, h, getNote]
  exact getRec_putAt _ _ _ rfl

theorem perm_insertByMod (n : Note) (l : List Note) :
    (insertByMod n l).Perm (n :: l) := by
  induction l with
  | nil => simp [insertByMod]
  | cons m ms ih =>
    by_cases hc : m.lastModifiedAt ≤ n.lastModifiedAt
    · simp [insertByMod, hc]
    · simpa [insertByMod, hc] using (ih.cons m).trans (List.Perm.swap n m ms)

theorem mem_insertByMod {x n : Note} {l : List Note}
    (h : x ∈ insertByMod n l) : x = n ∨ x ∈ l := by
  have := (perm_insertByMod n l).mem_iff.mp h
  simpa using this

theorem sortedDesc_insertByMod (n : Note) (l : List Note) (h : SortedDesc l) :
    SortedDesc (insertByMod n l) := by
  induction l with
  | nil => simp [insertByMod, SortedDesc]
  | cons m ms ih =>
    rcases List.pairwise_cons.mp h with ⟨hm, hms⟩
    by_cases hc : m.lastModifiedAt ≤ n.lastModifiedAt
    · show List.Pairwise _ (insertByMod n (m :: ms))
      rw [insertByMod, if_pos hc]
      refine List.pairwise_cons.mpr ⟨?_, h⟩
      intro x hx
      rcases List.mem_cons.mp hx with rfl | hx'
      · exact hc
      · exact le_trans (hm x hx') hc
    · show List.Pairwise _ (insertByMod n (m :: ms))
      rw [insertByMod, if_neg hc]
      refine List.pairwise_cons.mpr ⟨?_, ih hms⟩
      intro x hx
      rcases mem_insertByMod hx with rfl | hx'
      · exact le_of_lt (Nat.lt_of_not_le hc)
      · exact hm x hx'

theorem sortedDesc_sortByModDesc (l : List Note) : SortedDesc (sortByModDesc l) := by
  induction l with
  | nil => simp [sortByModDesc, SortedDesc]
  | cons m ms ih => exact sortedDesc_insertByMod m _ ih

theorem perm_sortByModDesc (l : List Note) : (sortByModDesc l).Perm l := by
  induction l with
  | nil => simp [sortByModDesc]
  | cons m ms ih => exact (perm_insertByMod m _).trans (ih.cons m)

theorem getUser_saveUser (users : List User) (u : User) :
    getUser (saveUser users u) u.id = some u := by
  induction users with
  | nil => simp [saveUser, getUser]
  | cons v vs ih =>
    by_cases hv : v.id = u.id
    · simp [saveUser, getUser, hv]
    · simp [saveUser, getUser, hv, ih]

theorem jsOrZero_eq (n : Nat) : jsOrZero n = n := by
  by_cases h : n = 0 <;> simp [jsOrZero, h]

theorem initStats_users (st : IdentityState) : (initStats st).users = st.users := by
  cases h : st.stats <;> simp [initStats, h]

theorem initStats_stats (st : IdentityState) :
    ∃ s, (initStats st).stats = some s := by
  cases h : st.stats with
  | none =>
    exact ⟨{ id := "global", uniqueUsers := 0 }, by simp [initStats, h]⟩
  | some s => exact ⟨s, by simp [initStats, h]⟩

/-- Characterization of `saveCurrentNote` on the non-trivial path (a current
note and a truthy user): the merged, re-stamped record is persisted, made
current, substituted into the list by id, and the list re-sorted. -/
theorem saveCurrentNote_some (st : NotesState) (u : Option String) (p : NotePatch)
    (now : Nat) (cur : Note) (hcur : st.currentNote = some cur)
    (hu : strTruthy u = true) :
    ∃ m : Note,
      m = { mergeNote cur p with lastModifiedBy := u.getD "", lastModifiedAt := now } ∧
      saveCurrentNote st u p now =
        ({ st with
            store := (saveNote st.store m).1
            currentNote := some m
            notes := sortByModDesc (st.notes.map fun n => if n.id = m.id then m else n) },
          some m) := by
  refine ⟨_, rfl, ?_⟩
  simp [saveCurrentNote, hcur, hu]

/-- A concrete stored note used by witnesses below. -/
def exNote : Note :=
  { id := some 1
    title := "Note 1"
    createdBy := "u"
    createdAt := 1
    lastModifiedBy := "u"
    lastModifiedAt := 1
    textBoxes := []
    drawings := []
    canvasData := some [7] }

/-- A concrete repository state holding `exNote` as the current note. -/
def exState : NotesState :=
  { store := { nextId := 2, recs := [exNote] }
    notes := [exNote]
    currentNote := some exNote
    error := none }

/-- C1: a save whose partial update leaves a field key absent persists a
record in which that field still holds the current note's value: a text-only
save preserves `canvasData`, and a canvas-only save preserves `textContent`
and `textDirection` — the merge spreads the partial update over the full
current note before persisting. -/
theorem saveCurrentNote_preserves_unpatched_fields
    (st : NotesState) (u : Option String) (cur : Note) (k : Nat)
    (p : NotePatch) (now : Nat)
    (hcur : st.currentNote = some cur) (hu : strTruthy u = true)
    (hk : cur.id = some k) (hp : p.id = none) :
    ∃ m, (saveCurrentNote st u p now).2 = some m ∧
      getNote (saveCurrentNote st u p now).1.store k = some m ∧
      (p.canvasData = none → m.canvasData = cur.canvasData) ∧
      (p.textContent = none → m.textContent = cur.textContent) ∧
      (p.textDirection = none → m.textDirection = cur.textDirection) := by
  obtain ⟨m, hmdef, heq⟩ := saveCurrentNote_some st u p now cur hcur hu
  have hmid : m.id = some k := by
    rw [hmdef]; simp [mergeNote, overrideOpt, hp, hk]
  refine ⟨m, by rw [heq], ?_, ?_, ?_, ?_⟩
  · rw [heq]
    simp only [saveNote, hmid, getNote]
    exact getRec_putAt _ _ _ hmid
  · intro h; rw [hmdef]; simp [mergeNote, overrideOpt, h]
  · intro h; rw [hmdef]; simp [mergeNote, overrideOpt, h]
  · intro h; rw [hmdef]; simp [mergeNote, overrideOpt, h]

theorem saveCurrentNote_preserves_unpatched_fields_witness :
    ∃ m, (saveCurrentNote exState (some "u") { textContent := some "x" } 9).2 = some m ∧
      m.canvasData = some [7] := by
  obtain ⟨m, h1, _, h3, _, _⟩ :=
    saveCurrentNote_preserves_unpatched_fields exState (some "u") exNote 1
      { textContent := some "x" } 9 rfl (by decide) rfl rfl
  exact ⟨m, h1, by rw [h3 rfl]; rfl⟩

/-- C3 (amended): a save stamps the stored record's `lastModifiedAt` with
`Date.now()` at call time, so it strictly exceeds the current note's previous
`lastModifiedAt` exactly when the clock has strictly advanced since that
stamp; saves falling in the same millisecond produce equal timestamps (see
the counterexample). -/
theorem saveCurrentNote_advances_lastModified
    (st : NotesState) (u : Option String) (cur : Note) (p : NotePatch) (now : Nat)
    (hcur : st.currentNote = some cur) (hu : strTruthy u = true)
    (hnow : cur.lastModifiedAt < now) :
    ∃ m, (saveCurrentNote st u p now).2 = some m ∧
      m.lastModifiedAt = now ∧ cur.lastModifiedAt < m.lastModifiedAt ∧
      ∀ k, m.id = some k →
        getNote (saveCurrentNote st u p now).1.store k = some m := by
  obtain ⟨m, hmdef, heq⟩ := saveCurrentNote_some st u p now cur hcur hu
  have hmod : m.lastModifiedAt = now := by rw [hmdef]
  refine ⟨m, by rw [heq], hmod, by rw [hmod]; exact hnow, ?_⟩
  intro k hk
  rw [heq]
  simp only [saveNote, hk, getNote]
  exact getRec_putAt _ _ _ hk

theorem saveCurrentNote_advances_lastModified_witness :
    ∃ m, (saveCurrentNote exState (some "u") { textContent := some "x" } 9).2 = some m ∧
      m.lastModifiedAt = 9 ∧ exNote.lastModifiedAt < m.lastModifiedAt := by
  obtain ⟨m, h1, h2, h3, _⟩ :=
    saveCurrentNote_advances_lastModified exState (some "u") exNote
      { textContent := some "x" } 9 rfl (by decide) (by decide)
  exact ⟨m, h1, h2, h3⟩

/-- The state after creating a note at tick 5 and saving text `"a"` onto it,
still at tick 5 (two calls inside one millisecond of `Date.now()`). -/
def sameTickState : NotesState :=
  runOps (some "u") initialNotesState
    [NoteOp.create 5, NoteOp.save { textContent := some "a" } 5]

/-- C3 counterexample: a further save in the same millisecond changes
`textContent` from `"a"` to `"b"`, yet the stored record's `lastModifiedAt`
stays 5 — it does not strictly exceed the immediately preceding value, so the
claim fails as stated. -/
theorem saveCurrentNote_same_tick_cex :
    (sameTickState.currentNote.map fun n => (n.lastModifiedAt, n.textContent))
        = some (5, some "a") ∧
    ((saveCurrentNote sameTickState (some "u") { textContent := some "b" } 5).2.map
        fun n => (n.lastModifiedAt, n.textContent)) = some (5, some "b") ∧
    ((getNote (saveCurrentNote sameTickState (some "u")
          { textContent := some "b" } 5).1.store 1).map
        fun n => (n.lastModifiedAt, n.textContent)) = some (5, some "b") := by
  refine ⟨?_, ?_, ?_⟩ <;> decide

/-- C8: with no current note, `save` is a no-op: it returns a null result and
leaves the entire repository state — stored notes and in-memory list included
— unchanged. -/
theorem saveCurrentNote_no_current_noop (st : NotesState) (u : Option String)
    (p : NotePatch) (now : Nat) (h : st.currentNote = none) :
    saveCurrentNote st u p now = (st, none) := by
  simp [saveCurrentNote, h]

theorem saveCurrentNote_no_current_noop_witness :
    saveCurrentNote initialNotesState (some "u") { textContent := some "x" } 5
      = (initialNotesState, none) :=
  saveCurrentNote_no_current_noop initialNotesState (some "u")
    { textContent := some "x" } 5 rfl

/-- C5: a created note is returned with a non-null id (the key assigned by
the store on first insert), equal `createdAt` and `lastModifiedAt`, and both
`createdBy` and `lastModifiedBy` equal to the acting user; it also becomes
the current note. -/
theorem createNote_spec (st : NotesState) (u : Option String) (s : String)
    (now : Nat) (hus : u = some s) (hu : strTruthy u = true) :
    ∃ m, (createNote st u now).2 = some m ∧
      (createNote st u now).1.currentNote = some m ∧
      m.id = some st.store.nextId ∧
      m.createdAt = now ∧ m.lastModifiedAt = now ∧
      m.createdBy = s ∧ m.lastModifiedBy = s := by
  subst hus
  refine ⟨{ id := some st.store.nextId
            title := "Note " ++ toString now
            createdBy := s
            createdAt := now
            lastModifiedBy := s
            lastModifiedAt := now
            textBoxes := []
            drawings := [] }, ?_, ?_, rfl, rfl, rfl, rfl, rfl⟩ <;>
    simp [createNote, hu, getNote_saveNote_fresh]

theorem createNote_spec_witness :
    ∃ m, (createNote initialNotesState (some "u") 5).2 = some m ∧
      m.id = some 1 ∧ m.createdAt = 5 ∧ m.lastModifiedAt = 5 ∧
      m.createdBy = "u" ∧ m.lastModifiedBy = "u" := by
  obtain ⟨m, h1, _, h3, h4, h5, h6, h7⟩ :=
    createNote_spec initialNotesState (some "u") "u" 5 rfl (by decide)
  exact ⟨m, h1, h3, h4, h5, h6, h7⟩

/-- C2 (amended): `load(id)` on an id absent from the store does NOT fail —
IndexedDB `get` resolves with `undefined` on a missing key — so the call
resolves with an undefined result, records no error, and sets the current
note to undefined (clearing any existing selection); on a present id it makes
the fetched note current and returns it. -/
theorem loadNote_absent_resolves (st : NotesState) (k : Nat) :
    (getNote st.store k = none →
      (loadNote st k).2 = none ∧
      (loadNote st k).1.error = st.error ∧
      (loadNote st k).1.currentNote = none) ∧
    ∀ n, getNote st.store k = some n →
      (loadNote st k).1.currentNote = some n ∧ (loadNote st k).2 = some n := by
  constructor
  · intro h
    simp [loadNote, h]
  · intro n h
    simp [loadNote, h]

theorem loadNote_absent_resolves_witness :
    (loadNote exState 5).2 = none ∧ (loadNote exState 5).1.currentNote = none ∧
    (loadNote exState 1).1.currentNote = some exNote := by
  obtain ⟨h1, _, h3⟩ := (loadNote_absent_resolves exState 5).1 (by decide)
  obtain ⟨h4, _⟩ := (loadNote_absent_resolves exState 1).2 exNote (by decide)
  exact ⟨h1, h3, h4⟩

/-- C2 counterexample: with note id 5 absent from the store, `load(5)` takes
the success path, not an error path: it returns an undefined result, the
`error` cell stays unset, and the previously selected current note is
clobbered to undefined — there is no error outcome distinct from success. -/
theorem loadNote_absent_resolves_cex :
    getNote exState.store 5 = none ∧
    exState.currentNote = some exNote ∧
    (loadNote exState 5).2 = none ∧
    (loadNote exState 5).1.error = none ∧
    (loadNote exState 5).1.currentNote = none := by
  refine ⟨?_, ?_, ?_, ?_, ?_⟩ <;> decide

/-- C7: `listAll` (the `loadNotes` refresh) publishes exactly the stored
notes, sorted descending by `lastModifiedAt`; and after every save the
in-memory list is re-sorted — it is again ordered by the records' timestamps,
and the freshly stamped saved record itself sits in that sorted list whenever
its id occurs in the list being updated. -/
theorem listAll_sorted (st : NotesState) (u : Option String) (p : NotePatch)
    (now : Nat) :
    (strTruthy u = true →
      SortedDesc (loadNotes st u).notes ∧
      (loadNotes st u).notes.Perm (getNotes st.store)) ∧
    (strTruthy u = true → ∀ cur, st.currentNote = some cur →
      SortedDesc (saveCurrentNote st u p now).1.notes ∧
      ∃ m, (saveCurrentNote st u p now).2 = some m ∧
        ((∃ n ∈ st.notes, n.id = m.id) →
          m ∈ (saveCurrentNote st u p now).1.notes)) := by
  constructor
  · intro hu
    have : (loadNotes st u).notes = sortByModDesc (getNotes st.store) := by
      simp [loadNotes, hu]
    rw [this]
    exact ⟨sortedDesc_sortByModDesc _, perm_sortByModDesc _⟩
  · intro hu cur hcur
    obtain ⟨m, _, heq⟩ := saveCurrentNote_some st u p now cur hcur hu
    rw [heq]
    refine ⟨sortedDesc_sortByModDesc _, m, rfl, ?_⟩
    rintro ⟨n, hn, hid⟩
    have hmem : m ∈ st.notes.map fun n => if n.id = m.id then m else n := by
      have := List.mem_map_of_mem (fun n => if n.id = m.id then m else n) hn
      simpa [hid] using this
    exact (perm_sortByModDesc _).mem_iff.mpr hmem

theorem listAll_sorted_witness :
    SortedDesc (loadNotes exState (some "u")).notes ∧
    SortedDesc (saveCurrentNote exState (some "u") { textContent := some "x" } 9).1.notes := by
  refine ⟨((listAll_sorted exState (some "u") { textContent := some "x" } 9).1 (by decide)).1,
    ((listAll_sorted exState (some "u") { textContent := some "x" } 9).2 (by decide)
      exNote rfl).1⟩

/-- C10: `incrementUniqueUsers` never rejects (it is a total function of the
store content and the two round-trip outcomes).  On any failure — the stats
record being absent, which makes the `stats.uniqueUsers` field access throw
into the outer catch, or a rejected write — it resolves with 0 and writes
nothing; on success it persists and resolves with the incremented counter
(a rejected READ is caught internally, re-initialises the record to 0, and
still succeeds with 1). -/
theorem incrementUniqueUsers_spec (store : Option Stats) (readOk writeOk : Bool) :
    (readOk = true → store = none →
      incrementUniqueUsers store readOk writeOk = (store, 0)) ∧
    (writeOk = false →
      incrementUniqueUsers store readOk writeOk = (store, 0)) ∧
    (writeOk = true → ∀ s : Stats,
      (if readOk then store else some { id := "global", uniqueUsers := 0 }) = some s →
      incrementUniqueUsers store readOk writeOk
        = (some { s with uniqueUsers := s.uniqueUsers + 1 }, s.uniqueUsers + 1)) := by
  refine ⟨?_, ?_, ?_⟩
  · rintro rfl rfl
    simp [incrementUniqueUsers]
  · rintro rfl
    cases hr : (if readOk then store else some { id := "global", uniqueUsers := 0 } : Option Stats) with
    | none => simp [incrementUniqueUsers, hr]
    | some s => simp [incrementUniqueUsers, hr]
  · rintro rfl s hs
    simp [incrementUniqueUsers, hs, jsOrZero_eq]

theorem incrementUniqueUsers_spec_witness :
    incrementUniqueUsers (some { id := "global", uniqueUsers := 3 }) true true
        = (some { id := "global", uniqueUsers := 4 }, 4) ∧
    incrementUniqueUsers none true true = (none, 0) := by
  refine ⟨(incrementUniqueUsers_spec (some { id := "global", uniqueUsers := 3 })
      true true).2.2 rfl { id := "global", uniqueUsers := 3 } (by decide), ?_⟩
  exact (incrementUniqueUsers_spec none true true).1 rfl rfl

/-- C6: resolving identity for a fingerprint with no stored User record
constructs a User whose avatar URL is the deterministic seeded DiceBear URL
of the fingerprint and whose `createdAt` is the current timestamp, persists
it under the fingerprint, and increments the global `uniqueUsers` counter by
exactly one over its post-`initStats` value. -/
theorem initUser_new_device (st : IdentityState) (f : String) (now : Nat)
    (habsent : getUser st.users f = none) :
    ∃ u s, (initUser st f now).2.1 = some u ∧
      u.id = f ∧
      u.avatarUrl = some (generateAvatar f) ∧
      u.createdAt = now ∧
      getUser (initUser st f now).1.users f = some u ∧
      (initStats st).stats = some s ∧
      (initUser st f now).1.stats = some { s with uniqueUsers := s.uniqueUsers + 1 } := by
  obtain ⟨s, hs⟩ := initStats_stats st
  have husers : getUser (initStats st).users f = none := by
    rw [initStats_users]; exact habsent
  refine ⟨{ id := f, avatarUrl := some (generateAvatar f), createdAt := now }, s,
    ?_, rfl, rfl, rfl, ?_, hs, ?_⟩
  · simp [initUser, husers]
  · simp only [initUser, husers]
    exact getUser_saveUser _ _
  · simp [initUser, husers, hs, incrementUniqueUsers, jsOrZero_eq]

theorem initUser_new_device_witness :
    ∃ u, (initUser { users := [], stats := some { id := "global", uniqueUsers := 0 } }
        "abc" 7).2.1 = some u ∧
      u.avatarUrl = some (generateAvatar "abc") ∧
      (initUser { users := [], stats := some { id := "global", uniqueUsers := 0 } }
        "abc" 7).1.stats = some { id := "global", uniqueUsers := 1 } := by
  obtain ⟨u, s, h1, _, h3, _, _, hs, h7⟩ :=
    initUser_new_device
      { users := [], stats := some { id := "global", uniqueUsers := 0 } } "abc" 7 rfl
  have hseq : s = { id := "global", uniqueUsers := 0 } := by
    simp [initStats] at hs
    exact hs.symm
  refine ⟨u, h1, h3, ?_⟩
  rw [h7, hseq]

/-- C9: the text-save path determines the canvas data to persist cache-first
(only re-exporting from the live surface when the cache is absent or empty);
the note it hands to `saveCurrentNote` carries the new text fields together
with that canvas data when non-empty, and keeps the note's previous
`canvasData` otherwise — so a text save never erases drawing content; and the
canvas-save path spreads the full current note, so it never erases the text
fields. -/
theorem text_save_merge_policy (cur : Note) (cache live : Option (List Nat))
    (text : String) (dir : Dir) (uid : String) (now : Nat) :
    (∃ m, (handleSaveText (some cur) cache live text dir uid now).1 = some m ∧
      m.textContent = some text ∧
      m.textDirection = some dir ∧
      (pathsTruthyNonempty cache = true → m.canvasData = cache) ∧
      (pathsTruthyNonempty cache = false → pathsTruthyNonempty live = true →
        m.canvasData = live) ∧
      (pathsTruthyNonempty cache = false → live = none →
        m.canvasData = cur.canvasData) ∧
      (m.canvasData = none → cur.canvasData = none)) ∧
    ∀ m, (handleSave (some cur) cache live uid now).1 = some m →
      m.textContent = cur.textContent ∧ m.textDirection = cur.textDirection := by
  constructor
  · refine ⟨_, rfl, rfl, rfl, ?_, ?_, ?_, ?_⟩
    · intro hc
      simp [handleSaveText, hc]
    · intro hc hl
      cases live with
      | none => simp [pathsTruthyNonempty] at hl
      | some l => simp [handleSaveText, hc, hl]
    · intro hc hl
      subst hl
      simp [handleSaveText, hc]
    · intro h
      simp only [handleSaveText] at h
      by_cases hp : pathsTruthyNonempty
          (if live.isSome && !pathsTruthyNonempty cache then live else cache) = true
      · rw [if_pos hp] at h
        exfalso
        cases hifval : (if live.isSome && !pathsTruthyNonempty cache then live else cache) with
        | none => rw [hifval] at hp; simp [pathsTruthyNonempty] at hp
        | some l =>
          rw [hifval] at hp h
          exact Option.noConfusion h
      · rw [if_neg hp] at h
        exact h
  · intro m hm
    cases live with
    | some l =>
      simp only [handleSave] at hm
      cases hm
      exact ⟨rfl, rfl⟩
    | none =>
      cases cache with
      | none => simp [handleSave] at hm
      | some c =>
        simp only [handleSave] at hm
        cases hm
        exact ⟨rfl, rfl⟩

theorem text_save_merge_policy_witness :
    ∃ m, (handleSaveText (some exNote) (some [9]) (some [3]) "x" Dir.ltr "u" 4).1
        = some m ∧
      m.canvasData = some [9] ∧ m.textContent = some "x" := by
  obtain ⟨⟨m, h1, h2, _, h4, _, _, _⟩, _⟩ :=
    text_save_merge_policy exNote (some [9]) (some [3]) "x" Dir.ltr "u" 4
  exact ⟨m, h1, by rw [h4 (by decide)], h2⟩

theorem noteOk_mono {t t' : Nat} (h : t ≤ t') {n : Note} (hn : noteOk t n) :
    noteOk t' n :=
  ⟨hn.1, le_trans hn.2 h⟩

theorem stateOk_mono {t t' : Nat} (h : t ≤ t') {st : NotesState}
    (hst : stateOk t st) : stateOk t' st :=
  ⟨fun n hn => noteOk_mono h (hst.1 n hn), fun n hn => noteOk_mono h (hst.2 n hn)⟩

theorem stateOk_createNote {t now : Nat} {st : NotesState} (u : Option String)
    (hst : stateOk t st) (hle : t ≤ now) :
    stateOk now (createNote st u now).1 := by
  by_cases hu : strTruthy u = true
  · have hfresh := getNote_saveNote_fresh st.store
      { id := none
        title := "Note " ++ toString now
        createdBy := u.getD ""
        createdAt := now
        lastModifiedBy := u.getD ""
        lastModifiedAt := now
        textBoxes := []
        drawings := [] } rfl
    simp only [createNote, hu, Bool.not_true, Bool.false_eq_true, if_false, hfresh]
    constructor
    · intro n hn
      simp only [saveNote] at hn
      rcases mem_putAt hn with rfl | hmem
      · exact ⟨le_refl now, le_refl now⟩
      · exact noteOk_mono hle (hst.1 n hmem)
    · intro n hn
      simp only at hn
      cases hn
      exact ⟨le_refl now, le_refl now⟩
  · simp only [createNote, hu]
    simp only [Bool.not_eq_true] at hu
    simp only [hu, Bool.not_false, if_true]
    exact stateOk_mono hle hst

theorem stateOk_saveCurrentNote {t now : Nat} {st : NotesState}
    (u : Option String) {p : NotePatch} (hp : cleanPatch p)
    (hst : stateOk t st) (hle : t ≤ now) :
    stateOk now (saveCurrentNote st u p now).1 := by
  cases hcur : st.currentNote with
  | none =>
    simp only [saveCurrentNote, hcur]
    exact stateOk_mono hle hst
  | some cur =>
    by_cases hu : strTruthy u = true
    · obtain ⟨m, hmdef, heq⟩ := saveCurrentNote_some st u p now cur hcur hu
      have hcur_ok : noteOk t cur := hst.2 cur hcur
      have hm_created : m.createdAt = cur.createdAt := by
        rw [hmdef]; simp [mergeNote, overrideWith, hp.1]
      have hm_mod : m.lastModifiedAt = now := by rw [hmdef]
      have hmok : noteOk now m := by
        refine ⟨?_, by rw [hm_mod]⟩
        rw [hm_created, hm_mod]
        exact le_trans hcur_ok.1 (le_trans hcur_ok.2 hle)
      rw [heq]
      constructor
      · intro n hn
        cases hmid : m.id with
        | some k =>
          simp only [saveNote, hmid] at hn
          rcases mem_putAt hn with rfl | hmem
          · exact hmok
          · exact noteOk_mono hle (hst.1 n hmem)
        | none =>
          simp only [saveNote, hmid] at hn
          rcases mem_putAt hn with rfl | hmem
          · exact ⟨hmok.1, hmok.2⟩
          · exact noteOk_mono hle (hst.1 n hmem)
      · intro n hn
        simp only at hn
        cases hn
        exact hmok
    · simp only [saveCurrentNote, hcur]
      simp only [Bool.not_eq_true] at hu
      simp only [hu, Bool.not_false, if_true]
      exact stateOk_mono hle hst

theorem stateOk_runOps (u : Option String) :
    ∀ (ops : List NoteOp) (st : NotesState) (t : Nat),
      stateOk t st → timesMono t ops → cleanOps ops →
      ∃ t', t ≤ t' ∧ stateOk t' (runOps u st ops) := by
  intro ops
  induction ops with
  | nil => exact fun st t h _ _ => ⟨t, le_refl t, h⟩
  | cons op ops ih =>
    intro st t h hm hc
    cases op with
    | create now =>
      obtain ⟨t', ht', hok⟩ :=
        ih (createNote st u now).1 now (stateOk_createNote u h hm.1) hm.2 hc
      exact ⟨t', le_trans hm.1 ht', hok⟩
    | save p now =>
      obtain ⟨t', ht', hok⟩ :=
        ih (saveCurrentNote st u p now).1 now
          (stateOk_saveCurrentNote u hc.1 h hm.1) hm.2 hc.2
      exact ⟨t', le_trans hm.1 ht', hok⟩

/-- C4 (amended): over any sequence of `create` and `save` operations whose
clock readings never decrease and whose partial updates do not override the
creation metadata (`createdAt`/`createdBy`), every stored note record
satisfies `lastModifiedAt >= createdAt` (all four stamp fields are present by
construction on every path that stores a record).  Without the restriction on
partial updates the invariant is refutable — see the counterexample. -/
theorem stored_notes_stamp_invariant (u : Option String) (ops : List NoteOp)
    (hm : timesMono 0 ops) (hc : cleanOps ops) :
    ∀ n ∈ (runOps u initialNotesState ops).store.recs,
      n.createdAt ≤ n.lastModifiedAt := by
  have hinit : stateOk 0 initialNotesState := by
    constructor
    · intro n hn
      simp [initialNotesState, NotesState.store] at hn
    · intro n hn
      simp [initialNotesState] at hn
  obtain ⟨t', _, hok⟩ := stateOk_runOps u ops initialNotesState 0 hinit hm hc
  exact fun n hn => (hok.1 n hn).1

theorem stored_notes_stamp_invariant_witness :
    ((runOps (some "u") initialNotesState
        [NoteOp.create 3, NoteOp.save { textContent := some "hi" } 5]).store.recs.all
      fun n => n.createdAt ≤ n.lastModifiedAt) = true := by
  have h :=
    stored_notes_stamp_invariant (some "u")
      [NoteOp.create 3, NoteOp.save { textContent := some "hi" } 5]
      ⟨by decide, by decide, trivial⟩ ⟨⟨rfl, rfl⟩, trivial⟩
  simp only [List.all_eq_true, decide_eq_true_eq]
  exact h

/-- C4 counterexample: a save whose partial update overrides `createdAt`
(allowed by `Partial<Note>` and not filtered by the merge) stores a record
with `createdAt = 100 > 20 = lastModifiedAt`, refuting the invariant as
stated for arbitrary save operations. -/
theorem stored_notes_stamp_invariant_cex :
    ¬ ∀ n ∈ (runOps (some "u") initialNotesState
        [NoteOp.create 10, NoteOp.save { createdAt := some 100 } 20]).store.recs,
      n.createdAt ≤ n.lastModifiedAt := by
  decide
